import Mathlib

/-!
Verification development for the hotwired-mcp repository.

The published sources of this repository are the npm packaging scripts
(`scripts/postinstall.js`, `scripts/update-version.js`) together with the
README and changelog; the Rust session/IPC relay described by `spec.md`
is distributed only as a prebuilt binary.  Accordingly the relay
components (framing codec, correlation table, session state machine,
transmission ordering) are modelled here from the specification text,
while the two scripts are embedded directly from their JavaScript source.
-/

namespace HotwiredMCP

/-! ## Session State Machine (modelled from the spec) -/

/-- Modelled from the spec: the lifecycle states of the Session State
Machine (spec section 3, "Lifecycle states"); the Rust core implementing
them is not part of the published sources.
`Unregistered → Registered → Active ⇄ Blocked → HandedOff | Complete`. -/
inductive SessionState
  | Unregistered
  | Registered
  | Active
  | Blocked
  | HandedOff
  | Complete
deriving DecidableEq, Repr, Fintype

/-- Modelled from the spec: the tool operations exposed by the Tool
Dispatcher (spec section 4.5 and the README tool table), together with
`register` (spec section 4.4). -/
inductive ToolOp
  | register
  | getProtocol
  | getRunStatus
  | reportStatus
  | sendMessage
  | requestInput
  | reportImpediment
  | handoff
  | taskComplete
deriving DecidableEq, Repr, Fintype

/-- Modelled from the spec: reasons attached to an `IllegalTransition`
error (spec sections 4.4 and 7). -/
inductive TransReason
  | NotRegistered
  | Terminal
  | InvalidEvent
deriving DecidableEq, Repr, Fintype

/-- Modelled from the spec: the caller-visible session error taxonomy
relevant to state gating (spec section 7). -/
inductive SessionError
  | IllegalTransition (r : TransReason)
deriving DecidableEq, Repr

/-- Modelled from the spec: which tool operations are idempotent
read-only queries ("query run status (read-only, always legal once
registered)" and the idempotent set "status query, get_protocol" of
spec section 4.6). -/
def isReadOnly : ToolOp → Bool
  | .getProtocol => true
  | .getRunStatus => true
  | _ => false

/-- Modelled from the spec: the transition function of the Session State
Machine (spec sections 3, 4.4, 4.5).  `register` must be the first
successful operation; any other operation while `Unregistered` fails with
`IllegalTransition{NotRegistered}`; read-only queries are legal in every
registered state and leave it unchanged; `HandedOff` and `Complete` are
terminal; `report_status` (re)enters `Active`, `report_impediment` enters
`Blocked`, `handoff` enters `HandedOff`, `task_complete` enters
`Complete`. -/
def step (s : SessionState) (op : ToolOp) : Except SessionError SessionState :=
  match s, op with
  | .Unregistered, .register => .ok .Registered
  | .Unregistered, _ => .error (.IllegalTransition .NotRegistered)
  | _, .register => .error (.IllegalTransition .InvalidEvent)
  | s, .getProtocol => .ok s
  | s, .getRunStatus => .ok s
  | .HandedOff, _ => .error (.IllegalTransition .Terminal)
  | .Complete, _ => .error (.IllegalTransition .Terminal)
  | _, .reportStatus => .ok .Active
  | s, .sendMessage => .ok s
  | s, .requestInput => .ok s
  | _, .reportImpediment => .ok .Blocked
  | _, .handoff => .ok .HandedOff
  | _, .taskComplete => .ok .Complete

/-- The state actually held after attempting an operation: a failing
operation is reported to the caller and leaves the session state
unchanged (spec section 4.4: "never silently ignored"). -/
def applyOp (s : SessionState) (op : ToolOp) : SessionState :=
  match step s op with
  | .ok t => t
  | .error _ => s

/-! ## postinstall.js (embedded from the source) -/

/-- The platform-to-package table `PLATFORMS` of
`scripts/postinstall.js`. -/
def PLATFORMS : List (String × String) :=
  [("darwin-arm64", "@hotwired/mcp-darwin-arm64"),
   ("darwin-x64", "@hotwired/mcp-darwin-x64"),
   ("linux-x64", "@hotwired/mcp-linux-x64"),
   ("linux-arm64", "@hotwired/mcp-linux-arm64"),
   ("win32-x64", "@hotwired/mcp-win32-x64")]

/-- Outcome of running the postinstall script: its exit status and the
console lines it printed. -/
structure PostinstallResult where
  exitCode : Nat
  logs : List String
deriving Repr, DecidableEq

/-- `scripts/postinstall.js`: look up `process.platform`-`process.arch`
in `PLATFORMS`; an unmapped platform warns and exits 0 explicitly; a
mapped platform tries `require.resolve` on the platform package
(abstracted as the `canResolve` oracle) and on failure only warns; the
script then falls off the end, exiting 0. -/
def postinstall (platform arch : String) (canResolve : String → Bool) :
    PostinstallResult :=
  let platformKey := platform ++ "-" ++ arch
  match PLATFORMS.lookup platformKey with
  | none =>
      { exitCode := 0
        logs := ["hotwired-mcp: No prebuilt binary for " ++ platformKey,
                 "You may need to build from source: cargo install hotwired-mcp"] }
  | some packageName =>
      if canResolve (packageName ++ "/package.json") then
        { exitCode := 0
          logs := ["hotwired-mcp: Using binary from " ++ packageName] }
      else
        { exitCode := 0
          logs := ["hotwired-mcp: Platform package " ++ packageName ++ " not found",
                   "This may happen if optional dependencies failed to install.",
                   "You can build from source: cargo install hotwired-mcp"] }

/-! ## Framing Codec (modelled from the spec) -/

/-- Modelled from the spec: the framing failure taxonomy (spec sections
4.2 and 7); the codec itself belongs to the unpublished Rust core. -/
inductive FramingError
  | Corrupt
deriving DecidableEq, Repr

/-- Modelled from the spec: the ceiling above which a length header is
"oversized" and hence corrupt (spec section 4.2).  The exact value is an
implementation choice; 16 MiB here. -/
def MAX_FRAME : Nat := 16777216

/-- Modelled from the spec: read the fixed-width (4-byte big-endian)
length header from the front of a byte buffer. -/
def readLen (b : List Nat) : Nat :=
  b.getD 0 0 * 16777216 + b.getD 1 0 * 65536 + b.getD 2 0 * 256 + b.getD 3 0

/-- Modelled from the spec: encode a payload size as the fixed-width
4-byte big-endian header. -/
def encodeLen (n : Nat) : List Nat :=
  [n / 16777216 % 256, n / 65536 % 256, n / 256 % 256, n % 256]

/-- Modelled from the spec: `encode(Message) -> bytes`: each message is
length-prefixed with the fixed-width header followed by its payload
(spec section 4.2).  Payload bytes are abstracted as a byte list. -/
def encode (msg : List Nat) : List Nat :=
  encodeLen msg.length ++ msg

/-- The decoder's per-connection state: the buffered bytes of a
not-yet-complete frame, or the fatal failed state entered on a corrupt
frame (spec section 4.2: corruption is fatal, no resynchronization). -/
inductive DecoderState
  | ok (buf : List Nat)
  | failed (e : FramingError)
deriving DecidableEq, Repr

/-- Modelled from the spec: extract every complete frame from the front
of the buffered bytes.  A header longer than `MAX_FRAME` is corrupt and
fatal; an incomplete trailing frame stays buffered untouched. -/
def drain (buf : List Nat) : List (List Nat) × DecoderState :=
  if h4 : buf.length < 4 then ([], .ok buf)
  else
    if MAX_FRAME < readLen buf then ([], .failed .Corrupt)
    else if buf.length < 4 + readLen buf then ([], .ok buf)
    else
      ((buf.drop 4).take (readLen buf) :: (drain (buf.drop (4 + readLen buf))).1,
        (drain (buf.drop (4 + readLen buf))).2)
termination_by buf.length
decreasing_by simp; omega

/-- Modelled from the spec: `decode_stream`: feed a newly arrived chunk
of bytes, returning all now-complete messages and the new decoder
state; a failed decoder never yields another message. -/
def decodeStream : DecoderState → List Nat → List (List Nat) × DecoderState
  | .ok buf, chunk => drain (buf ++ chunk)
  | .failed e, _ => ([], .failed e)

/-- Repeatedly call `decodeStream`, one chunk per call, collecting every
message returned across the calls. -/
def decodeStreamAll : DecoderState → List (List Nat) → List (List Nat) × DecoderState
  | st, [] => ([], st)
  | st, c :: cs =>
      ((decodeStream st c).1 ++ (decodeStreamAll (decodeStream st c).2 cs).1,
        (decodeStreamAll (decodeStream st c).2 cs).2)

/-- A decoder state is quiescent when feeding it nothing yields
nothing: the buffered bytes form no complete frame. -/
def Quiescent : DecoderState → Prop
  | .ok buf => drain buf = ([], .ok buf)
  | .failed _ => True

/-! ## Correlation Table (modelled from the spec) -/

/-- Modelled from the spec: a Request (spec section 3): tool name,
typed payload (abstracted to a string), creation timestamp.  The unique
identifier is allocated by the Correlation Table on submission. -/
structure Request where
  tool : String
  payload : String
  createdAt : Nat
deriving DecidableEq, Repr

/-- Modelled from the spec: the error kinds a pending call can be
resolved with (spec sections 4.3 and 7). -/
inductive ErrKind
  | ConnectionLost
  | Timeout
deriving DecidableEq, Repr

/-- Modelled from the spec: the single resolution delivered into a
PendingCall's slot: a successful typed result or a structured error
(cancellation on transport loss included). -/
inductive Resolution
  | success (v : String)
  | failure (e : ErrKind)
deriving DecidableEq, Repr

/-- Modelled from the spec: outcome of a `resolve` call: delivered, or
`UnknownId` when the identifier is absent (already resolved, already
cancelled, or never existed) — the attempt is rejected and nothing else
happens. -/
inductive ResolveOutcome
  | delivered
  | UnknownId
deriving DecidableEq, Repr

/-- Modelled from the spec: the Correlation Table (spec section 4.3):
the next fresh identifier, the currently pending calls in submission
order, and the log of resolutions already delivered into PendingCall
slots. -/
structure TableState where
  nextId : Nat
  pending : List (Nat × Request)
  delivered : List (Nat × Resolution)
deriving DecidableEq, Repr

def initTable : TableState := { nextId := 0, pending := [], delivered := [] }

/-- `submit` allocates a fresh unique identifier and stores a
PendingCall (spec section 4.3). -/
def submit (s : TableState) (req : Request) : Nat × TableState :=
  (s.nextId,
    { nextId := s.nextId + 1
      pending := s.pending ++ [(s.nextId, req)]
      delivered := s.delivered })

/-- `resolve` looks up by identifier; if present, the resolution is
delivered into that PendingCall's slot and the entry removed; if
absent, it returns `UnknownId` and performs no other action. -/
def resolve (s : TableState) (id : Nat) (r : Resolution) :
    ResolveOutcome × TableState :=
  if id ∈ s.pending.map Prod.fst then
    (.delivered,
      { nextId := s.nextId
        pending := s.pending.filter (fun p => p.1 != id)
        delivered := s.delivered ++ [(id, r)] })
  else (.UnknownId, s)

/-- `cancel_all`, invoked on transport loss: every currently pending
call is resolved with a `ConnectionLost` error and the table is left
empty (spec section 4.3). -/
def cancelAll (s : TableState) : TableState :=
  { nextId := s.nextId
    pending := []
    delivered := s.delivered
      ++ s.pending.map (fun p => (p.1, Resolution.failure .ConnectionLost)) }

/-- The states of the Correlation Table reachable under any sequence of
submissions, resolutions and cancellations. -/
inductive Reach : TableState → Prop
  | init : Reach initTable
  | step_submit (s : TableState) (req : Request) :
      Reach s → Reach (submit s req).2
  | step_resolve (s : TableState) (id : Nat) (r : Resolution) :
      Reach s → Reach (resolve s id r).2
  | step_cancel (s : TableState) : Reach s → Reach (cancelAll s)

/-- All identifiers known to the table: already-resolved ones followed
by the pending ones. -/
def tableIds (s : TableState) : List Nat :=
  s.delivered.map Prod.fst ++ s.pending.map Prod.fst

def sampleReq : Request := { tool := "get_run_status", payload := "", createdAt := 0 }

def sampleReq2 : Request := { tool := "get_protocol", payload := "", createdAt := 1 }

/-! ## Transmission ordering (modelled from the spec) -/

/-- Modelled from the spec: the observable relay state for frame
ordering on the single connection (spec section 5, Ordering
guarantees): requests submitted so far in submission order, the queue
of frames not yet written to the wire, and the frames transmitted so
far in transmission order. -/
structure RelayState where
  submitted : List Request
  queue : List Request
  transmitted : List Request
deriving DecidableEq, Repr

def initRelay : RelayState := { submitted := [], queue := [], transmitted := [] }

/-- A caller submits a request: it joins the single connection's send
queue in submission order. -/
def submitFrame (s : RelayState) (r : Request) : RelayState :=
  { s with submitted := s.submitted ++ [r], queue := s.queue ++ [r] }

/-- The writer transmits the frame at the head of the queue, if any
(strict FIFO on the single connection). -/
def transmitFrame (s : RelayState) : RelayState :=
  match s.queue with
  | [] => s
  | r :: q => { s with queue := q, transmitted := s.transmitted ++ [r] }

/-- Relay states reachable under any interleaving of submissions and
transmissions. -/
inductive RelayReach : RelayState → Prop
  | init : RelayReach initRelay
  | step_submit (s : RelayState) (r : Request) :
      RelayReach s → RelayReach (submitFrame s r)
  | step_transmit (s : RelayState) : RelayReach s → RelayReach (transmitFrame s)

/-! ## update-version.js (embedded from the source) -/

/-- A JSON value as far as `scripts/update-version.js` inspects one:
strings, objects (ordered fields — `JSON.parse`/`JSON.stringify`
preserve insertion order and post-parse keys are unique), and anything
else left opaque. -/
inductive JVal
  | str (s : String)
  | obj (fields : List (String × JVal))
  | atom (n : Nat)

/-- JavaScript property assignment `o[k] = v` on a parsed JSON object:
the existing key is updated in place, a missing key is appended in
insertion order. -/
def setKey : List (String × JVal) → String → JVal → List (String × JVal)
  | [], k, v => [(k, v)]
  | p :: t, k, v => if p.1 = k then (k, v) :: t else p :: setKey t k v

/-- The `optionalDependencies` loop of `scripts/update-version.js`
(lines 21–23): every value under the `optionalDependencies` object is
set to the version string; a missing or non-object value is left
alone (`Object.keys` of a non-object yields nothing to assign). -/
def updateOptDeps : List (String × JVal) → String → List (String × JVal)
  | [], _ => []
  | p :: t, v =>
      if p.1 = "optionalDependencies" then
        (p.1, match p.2 with
          | .obj deps => JVal.obj (deps.map (fun d => (d.1, JVal.str v)))
          | other => other) :: t
      else p :: updateOptDeps t v

/-- The main `package.json` rewrite of `scripts/update-version.js`
(lines 15–24): `mainPkg.version = version` followed by the
`optionalDependencies` loop. -/
def rewriteMainPkg (version : String) (fields : List (String × JVal)) :
    List (String × JVal) :=
  updateOptDeps (setKey fields "version" (.str version)) version

/-- First-match key lookup on a parsed JSON object. -/
def lookupKey : List (String × JVal) → String → Option JVal
  | [], _ => none
  | p :: t, k => if p.1 = k then some p.2 else lookupKey t k

/-- The whitespace class of the JavaScript regex `\s`, restricted to
the characters relevant here; crucially it matches the newline. -/
def jsSpace (c : Char) : Bool :=
  c == ' ' || c == '\t' || c == '\n' || c == '\r'

/-- Expect one literal character at the head of the input, returning
the remainder. -/
def expectChar (c : Char) : List Char → Option (List Char)
  | x :: t => if x = c then some t else none
  | [] => none

/-- Expect a literal character sequence at the head of the input. -/
def expectLit : List Char → List Char → Option (List Char)
  | [], s => some s
  | c :: cs, s => (expectChar c s).bind (expectLit cs)

/-- The regex `version\s*=\s*"[^"]*"` of `scripts/update-version.js`
line 43, as the deterministic matcher it denotes: literal `version`,
any whitespace (newlines included), `=`, any whitespace, then a quoted
run of non-quote characters.  Returns the input remaining after the
match. -/
def matchVersionAssign (s : List Char) : Option (List Char) := do
  let r0 ← expectLit "version".data s
  let r2 ← expectChar '=' (r0.dropWhile jsSpace)
  let r4 ← expectChar '"' (r2.dropWhile jsSpace)
  expectChar '"' (r4.dropWhile (fun c => c != '"'))

/-- The replacement text `version = "<v>"` of line 43. -/
def replacementText (v : List Char) : List Char :=
  "version = ".data ++ '"' :: (v ++ ['"'])

/-- `String.prototype.replace` with the `/m`-anchored regex: scan for
the first position that starts a line and matches, replace the matched
region once, and leave everything else untouched. -/
def scanReplace (v : List Char) : List Char → Bool → List Char
  | [], _ => []
  | c :: cs, true =>
      match matchVersionAssign (c :: cs) with
      | some rest => replacementText v ++ rest
      | none => c :: scanReplace v cs (c == '\n')
  | c :: cs, false => c :: scanReplace v cs (c == '\n')

/-- The Cargo.toml rewrite of `scripts/update-version.js` lines 39–46:
`cargo.replace(/^version\s*=\s*"[^"]*"/m, 'version = "<v>"')`. -/
def cargoReplaceVersion (v : List Char) (file : List Char) : List Char :=
  scanReplace v file true

/-- Locate the first line-start-anchored match: returns the bytes
before the match and the bytes after the matched region. -/
def anchoredMatchSplit : List Char → Bool → Option (List Char × List Char)
  | [], _ => none
  | c :: cs, true =>
      match matchVersionAssign (c :: cs) with
      | some rest => some ([], rest)
      | none => (anchoredMatchSplit cs (c == '\n')).map (fun q => (c :: q.1, q.2))
  | c :: cs, false =>
      (anchoredMatchSplit cs (c == '\n')).map (fun q => (c :: q.1, q.2))

/-- The per-line behavior the specification sentence describes
(claim's words, for comparison): replace a matching prefix of the first
line that matches, leaving every other line unchanged. -/
def cargoReplaceClaimed (v : List Char) : List (List Char) → List (List Char)
  | [] => []
  | l :: ls =>
      match matchVersionAssign l with
      | some rest => (replacementText v ++ rest) :: ls
      | none => l :: cargoReplaceClaimed v ls

/-- The files `scripts/update-version.js` reads or writes, as parsed
values: the main `package.json` object, the platform `package.json`
objects that exist under `npm/<platform>/`, and `Cargo.toml` when it
exists. -/
structure VersionFiles where
  mainPkg : List (String × JVal)
  platformPkgs : List (String × List (String × JVal))
  cargoToml : Option (List Char)

/-- The platform directory list of `scripts/update-version.js`
line 28. -/
def versionPlatforms : List String :=
  ["darwin-arm64", "darwin-x64", "linux-x64", "linux-arm64", "win32-x64"]

/-- `scripts/update-version.js`: with no (or an empty) version argument
it prints the usage line on stderr and exits 1 before touching any
file; otherwise it rewrites the main `package.json`, the existing
platform `package.json` files, and `Cargo.toml` when present.  Result:
(exit status, resulting files, stderr lines). -/
def updateVersionScript (argv2 : Option String) (fs : VersionFiles) :
    Nat × VersionFiles × List String :=
  match argv2 with
  | none => (1, fs, ["Usage: node update-version.js <version>"])
  | some v =>
      if v = "" then (1, fs, ["Usage: node update-version.js <version>"])
      else
        (0,
          { mainPkg := rewriteMainPkg v fs.mainPkg
            platformPkgs := fs.platformPkgs.map (fun p =>
              if p.1 ∈ versionPlatforms then (p.1, setKey p.2 "version" (.str v))
              else p)
            cargoToml := fs.cargoToml.map (cargoReplaceVersion v.data) },
          [])

def emptyVersionFiles : VersionFiles :=
  { mainPkg := [], platformPkgs := [], cargoToml := none }

def samplePkgFields : List (String × JVal) :=
  [("name", JVal.str "hotwired-mcp"),
   ("version", JVal.str "1.0.2"),
   ("optionalDependencies", JVal.obj [("@hotwired/mcp-linux-x64", JVal.str "1.0.2")])]

/-! ## Theorems -/

/-- C3: once the session is `HandedOff` or `Complete`, every operation
other than the idempotent read-only queries fails with
`IllegalTransition` and leaves the state unchanged; the read-only
queries stay legal; and a second `task_complete` after the first one
fails with `IllegalTransition` while the state remains `Complete`. -/
theorem terminal_states_reject_nonquery :
    (∀ (s : SessionState) (op : ToolOp), (s = .HandedOff ∨ s = .Complete) →
      isReadOnly op = false →
      (∃ r, step s op = .error (.IllegalTransition r)) ∧ applyOp s op = s) ∧
    (∀ s : SessionState, (s = .HandedOff ∨ s = .Complete) →
      step s .getRunStatus = .ok s ∧ step s .getProtocol = .ok s) ∧
    (step .Active .taskComplete = .ok .Complete ∧
      (∃ r, step .Complete .taskComplete = .error (.IllegalTransition r)) ∧
      applyOp .Complete .taskComplete = .Complete) := by
  refine ⟨?_, ?_, ?_⟩
  · intro s op hs hop
    rcases hs with hs | hs <;> subst hs <;> cases op <;>
      simp_all [step, applyOp, isReadOnly]
  · intro s hs
    rcases hs with hs | hs <;> subst hs <;> exact ⟨rfl, rfl⟩
  · exact ⟨rfl, ⟨.Terminal, rfl⟩, rfl⟩

/-- Witness for C3 at a concrete terminal state and operation. -/
theorem terminal_states_reject_nonquery_witness :
    ((∃ r, step .Complete .sendMessage = .error (.IllegalTransition r)) ∧
      applyOp .Complete .sendMessage = .Complete) ∧
    step .HandedOff .getRunStatus = .ok .HandedOff :=
  ⟨terminal_states_reject_nonquery.1 .Complete .sendMessage (Or.inr rfl) rfl,
    (terminal_states_reject_nonquery.2.1 .HandedOff (Or.inl rfl)).1⟩

/-- C4: every tool operation other than `register`, invoked in the
initial `Unregistered` state, fails with
`IllegalTransition{NotRegistered}`. -/
theorem unregistered_rejects_all_but_register :
    ∀ op : ToolOp, op ≠ .register →
      step .Unregistered op = .error (.IllegalTransition .NotRegistered) := by
  intro op hop
  cases op <;> simp_all [step]

/-- Witness for C4 at a concrete operation. -/
theorem unregistered_rejects_witness :
    step .Unregistered .getRunStatus
      = .error (.IllegalTransition .NotRegistered) :=
  unregistered_rejects_all_but_register .getRunStatus (by decide)

/-- C8: the postinstall script exits with status 0 for every platform,
architecture, and resolution outcome. -/
theorem postinstall_always_exits_zero
    (platform arch : String) (canResolve : String → Bool) :
    (postinstall platform arch canResolve).exitCode = 0 := by
  unfold postinstall
  rcases h : PLATFORMS.lookup (platform ++ "-" ++ arch) with _ | pkg <;>
    simp only [h]
  by_cases hc : canResolve (pkg ++ "/package.json") <;> simp [hc]

theorem drain_short (buf : List Nat) (h : buf.length < 4) :
    drain buf = ([], .ok buf) := by
  conv_lhs => rw [drain]
  rw [dif_pos h]

theorem drain_corrupt (buf : List Nat) (h4 : ¬ buf.length < 4)
    (hc : MAX_FRAME < readLen buf) : drain buf = ([], .failed .Corrupt) := by
  conv_lhs => rw [drain]
  rw [dif_neg h4, if_pos hc]

theorem drain_incomplete (buf : List Nat) (h4 : ¬ buf.length < 4)
    (hc : ¬ MAX_FRAME < readLen buf) (hi : buf.length < 4 + readLen buf) :
    drain buf = ([], .ok buf) := by
  conv_lhs => rw [drain]
  rw [dif_neg h4, if_neg hc, if_pos hi]

theorem drain_complete (buf : List Nat) (h4 : ¬ buf.length < 4)
    (hc : ¬ MAX_FRAME < readLen buf) (hi : ¬ buf.length < 4 + readLen buf) :
    drain buf
      = ((buf.drop 4).take (readLen buf) :: (drain (buf.drop (4 + readLen buf))).1,
        (drain (buf.drop (4 + readLen buf))).2) := by
  conv_lhs => rw [drain]
  rw [dif_neg h4, if_neg hc, if_neg hi]

theorem readLen_append (b e : List Nat) (h : 4 ≤ b.length) :
    readLen (b ++ e) = readLen b := by
  have h0 : 0 < b.length := by omega
  have h1 : 1 < b.length := by omega
  have h2 : 2 < b.length := by omega
  have h3 : 3 < b.length := by omega
  simp [readLen, List.getD, List.getElem?_append_left h0,
    List.getElem?_append_left h1, List.getElem?_append_left h2,
    List.getElem?_append_left h3]

theorem readLen_encodeLen (n : Nat) (hn : n < 4294967296) (rest : List Nat) :
    readLen (encodeLen n ++ rest) = n := by
  simp [readLen, encodeLen, List.getD]
  omega

/-- Draining an extended buffer first yields the messages already
complete in the original buffer, then continues on the leftover plus
the extension. -/
theorem drain_append_ok_aux :
    ∀ (n : Nat) (buf : List Nat), buf.length ≤ n →
      ∀ (msgs : List (List Nat)) (rest extra : List Nat),
        drain buf = (msgs, .ok rest) →
        drain (buf ++ extra)
          = (msgs ++ (drain (rest ++ extra)).1, (drain (rest ++ extra)).2) := by
  intro n
  induction n with
  | zero =>
      intro buf hb msgs rest extra h
      have hbuf : buf = [] := List.length_eq_zero.mp (Nat.le_zero.mp hb)
      subst hbuf
      rw [drain_short _ (by simp)] at h
      injection h with h1 h2
      injection h2 with h3
      subst h1; subst h3
      simp
  | succ n ih =>
      intro buf hb msgs rest extra h
      by_cases h4 : buf.length < 4
      · rw [drain_short _ h4] at h
        injection h with h1 h2
        injection h2 with h3
        subst h1; subst h3
        simp
      · by_cases hc : MAX_FRAME < readLen buf
        · rw [drain_corrupt _ h4 hc] at h
          injection h with h1 h2
          cases h2
        · by_cases hi : buf.length < 4 + readLen buf
          · rw [drain_incomplete _ h4 hc hi] at h
            injection h with h1 h2
            injection h2 with h3
            subst h1; subst h3
            simp
          · rw [drain_complete _ h4 hc hi] at h
            injection h with h1 h2
            subst h1
            have hr : drain (buf.drop (4 + readLen buf))
                = ((drain (buf.drop (4 + readLen buf))).1, .ok rest) := by
              rw [← h2]
            have hlenr : (buf.drop (4 + readLen buf)).length ≤ n := by
              simp only [List.length_drop]
              omega
            have hrl : readLen (buf ++ extra) = readLen buf :=
              readLen_append _ _ (by omega)
            have h4' : ¬ (buf ++ extra).length < 4 := by
              simp only [List.length_append]; omega
            have hc' : ¬ MAX_FRAME < readLen (buf ++ extra) := by
              rw [hrl]; exact hc
            have hi' : ¬ (buf ++ extra).length < 4 + readLen (buf ++ extra) := by
              rw [hrl]; simp only [List.length_append]; omega
            rw [drain_complete _ h4' hc' hi', hrl]
            have hdrop4 : (buf ++ extra).drop 4 = buf.drop 4 ++ extra :=
              List.drop_append_of_le_length (by omega)
            have htake : (buf.drop 4 ++ extra).take (readLen buf)
                = (buf.drop 4).take (readLen buf) :=
              List.take_append_of_le_length (by simp only [List.length_drop]; omega)
            have hdropA : (buf ++ extra).drop (4 + readLen buf)
                = buf.drop (4 + readLen buf) ++ extra :=
              List.drop_append_of_le_length (by omega)
            rw [hdrop4, htake, hdropA,
              ih (buf.drop (4 + readLen buf)) hlenr _ rest extra hr]
            simp

theorem drain_append_ok (buf : List Nat) (msgs : List (List Nat))
    (rest extra : List Nat) (h : drain buf = (msgs, .ok rest)) :
    drain (buf ++ extra)
      = (msgs ++ (drain (rest ++ extra)).1, (drain (rest ++ extra)).2) :=
  drain_append_ok_aux buf.length buf le_rfl msgs rest extra h

/-- Once corrupt, extending the buffer can never change the outcome. -/
theorem drain_append_failed_aux :
    ∀ (n : Nat) (buf : List Nat), buf.length ≤ n →
      ∀ (msgs : List (List Nat)) (e : FramingError) (extra : List Nat),
        drain buf = (msgs, .failed e) →
        drain (buf ++ extra) = (msgs, .failed e) := by
  intro n
  induction n with
  | zero =>
      intro buf hb msgs e extra h
      have hbuf : buf = [] := List.length_eq_zero.mp (Nat.le_zero.mp hb)
      subst hbuf
      rw [drain_short _ (by simp)] at h
      injection h with h1 h2
      cases h2
  | succ n ih =>
      intro buf hb msgs e extra h
      by_cases h4 : buf.length < 4
      · rw [drain_short _ h4] at h
        injection h with h1 h2
        cases h2
      · by_cases hc : MAX_FRAME < readLen buf
        · rw [drain_corrupt _ h4 hc] at h
          injection h with h1 h2
          injection h2 with h3
          subst h1; subst h3
          have hrl : readLen (buf ++ extra) = readLen buf :=
            readLen_append _ _ (by omega)
          have h4' : ¬ (buf ++ extra).length < 4 := by
            simp only [List.length_append]; omega
          exact drain_corrupt _ h4' (by rw [hrl]; exact hc)
        · by_cases hi : buf.length < 4 + readLen buf
          · rw [drain_incomplete _ h4 hc hi] at h
            injection h with h1 h2
            cases h2
          · rw [drain_complete _ h4 hc hi] at h
            injection h with h1 h2
            subst h1
            have hr : drain (buf.drop (4 + readLen buf))
                = ((drain (buf.drop (4 + readLen buf))).1, .failed e) := by
              rw [← h2]
            have hlenr : (buf.drop (4 + readLen buf)).length ≤ n := by
              simp only [List.length_drop]
              omega
            have hrl : readLen (buf ++ extra) = readLen buf :=
              readLen_append _ _ (by omega)
            have h4' : ¬ (buf ++ extra).length < 4 := by
              simp only [List.length_append]; omega
            have hc' : ¬ MAX_FRAME < readLen (buf ++ extra) := by
              rw [hrl]; exact hc
            have hi' : ¬ (buf ++ extra).length < 4 + readLen (buf ++ extra) := by
              rw [hrl]; simp only [List.length_append]; omega
            rw [drain_complete _ h4' hc' hi', hrl]
            have hdrop4 : (buf ++ extra).drop 4 = buf.drop 4 ++ extra :=
              List.drop_append_of_le_length (by omega)
            have htake : (buf.drop 4 ++ extra).take (readLen buf)
                = (buf.drop 4).take (readLen buf) :=
              List.take_append_of_le_length (by simp only [List.length_drop]; omega)
            have hdropA : (buf ++ extra).drop (4 + readLen buf)
                = buf.drop (4 + readLen buf) ++ extra :=
              List.drop_append_of_le_length (by omega)
            rw [hdrop4, htake, hdropA,
              ih (buf.drop (4 + readLen buf)) hlenr _ e extra hr]

theorem drain_append_failed (buf : List Nat) (msgs : List (List Nat))
    (e : FramingError) (extra : List Nat) (h : drain buf = (msgs, .failed e)) :
    drain (buf ++ extra) = (msgs, .failed e) :=
  drain_append_failed_aux buf.length buf le_rfl msgs e extra h

/-- The leftover buffer a drain returns is itself quiescent: draining it
again yields nothing new. -/
theorem drain_snd_ok_aux :
    ∀ (n : Nat) (buf : List Nat), buf.length ≤ n →
      ∀ (msgs : List (List Nat)) (rest : List Nat),
        drain buf = (msgs, .ok rest) → drain rest = ([], .ok rest) := by
  intro n
  induction n with
  | zero =>
      intro buf hb msgs rest h
      have hbuf : buf = [] := List.length_eq_zero.mp (Nat.le_zero.mp hb)
      subst hbuf
      rw [drain_short _ (by simp)] at h
      injection h with h1 h2
      injection h2 with h3
      subst h3
      exact drain_short _ (by simp)
  | succ n ih =>
      intro buf hb msgs rest h
      by_cases h4 : buf.length < 4
      · rw [drain_short _ h4] at h
        injection h with h1 h2
        injection h2 with h3
        subst h3
        exact drain_short _ h4
      · by_cases hc : MAX_FRAME < readLen buf
        · rw [drain_corrupt _ h4 hc] at h
          injection h with h1 h2
          cases h2
        · by_cases hi : buf.length < 4 + readLen buf
          · rw [drain_incomplete _ h4 hc hi] at h
            injection h with h1 h2
            injection h2 with h3
            subst h3
            exact drain_incomplete _ h4 hc hi
          · rw [drain_complete _ h4 hc hi] at h
            injection h with h1 h2
            exact ih (buf.drop (4 + readLen buf))
              (by simp only [List.length_drop]; omega) _ rest (by rw [← h2])

theorem drain_snd_ok (buf : List Nat) (msgs : List (List Nat))
    (rest : List Nat) (h : drain buf = (msgs, .ok rest)) :
    drain rest = ([], .ok rest) :=
  drain_snd_ok_aux buf.length buf le_rfl msgs rest h

/-- A failed decoder yields no messages on any further input. -/
theorem decodeStreamAll_failed (e : FramingError) (chunks : List (List Nat)) :
    decodeStreamAll (.failed e) chunks = ([], .failed e) := by
  induction chunks with
  | nil => rfl
  | cons c cs ih => simp [decodeStreamAll, decodeStream, ih]

theorem quiescent_init : Quiescent (.ok []) :=
  drain_short [] (by simp)

/-- Chunking invariance: feeding the chunks of a stream one call at a
time yields exactly the messages of feeding their concatenation at
once, ending in the same decoder state. -/
theorem decodeStreamAll_eq_flatten :
    ∀ (chunks : List (List Nat)) (st : DecoderState), Quiescent st →
      decodeStreamAll st chunks = decodeStream st chunks.flatten := by
  intro chunks
  induction chunks with
  | nil =>
      intro st hq
      cases st with
      | ok buf =>
          show ([], DecoderState.ok buf) = drain (buf ++ [])
          rw [List.append_nil]
          exact hq.symm
      | failed e => rfl
  | cons c cs ih =>
      intro st hq
      cases st with
      | failed e =>
          simp [decodeStreamAll, decodeStream, decodeStreamAll_failed]
      | ok buf =>
          rcases h : drain (buf ++ c) with ⟨m, s'⟩
          cases s' with
          | ok rest =>
              have hih := ih (.ok rest) (drain_snd_ok _ _ _ h)
              show ((decodeStream (.ok buf) c).1
                    ++ (decodeStreamAll (decodeStream (.ok buf) c).2 cs).1,
                  (decodeStreamAll (decodeStream (.ok buf) c).2 cs).2)
                = decodeStream (.ok buf) (c :: cs).flatten
              rw [show decodeStream (.ok buf) c = (m, .ok rest) from h]
              show (m ++ (decodeStreamAll (.ok rest) cs).1,
                  (decodeStreamAll (.ok rest) cs).2)
                = drain (buf ++ (c :: cs).flatten)
              rw [hih]
              show (m ++ (drain (rest ++ cs.flatten)).1,
                  (drain (rest ++ cs.flatten)).2)
                = drain (buf ++ (c ++ cs.flatten))
              rw [← List.append_assoc]
              exact (drain_append_ok (buf ++ c) m rest cs.flatten h).symm
          | failed e =>
              show ((decodeStream (.ok buf) c).1
                    ++ (decodeStreamAll (decodeStream (.ok buf) c).2 cs).1,
                  (decodeStreamAll (decodeStream (.ok buf) c).2 cs).2)
                = decodeStream (.ok buf) (c :: cs).flatten
              rw [show decodeStream (.ok buf) c = (m, .failed e) from h]
              show (m ++ (decodeStreamAll (.failed e) cs).1,
                  (decodeStreamAll (.failed e) cs).2)
                = drain (buf ++ (c :: cs).flatten)
              rw [decodeStreamAll_failed]
              show (m ++ [], DecoderState.failed e)
                = drain (buf ++ (c ++ cs.flatten))
              rw [← List.append_assoc, drain_append_failed (buf ++ c) m e cs.flatten h]
              simp

/-- Draining an encoded frame at the front of the buffer yields exactly
that message, then continues on the trailing bytes. -/
theorem drain_encode_cons (msg tail : List Nat) (hm : msg.length ≤ MAX_FRAME) :
    drain (encode msg ++ tail) = (msg :: (drain tail).1, (drain tail).2) := by
  have hm' : msg.length ≤ 16777216 := by simpa [MAX_FRAME] using hm
  have e1 : encode msg ++ tail = encodeLen msg.length ++ (msg ++ tail) := by
    simp [encode]
  have e4 : readLen (encodeLen msg.length ++ (msg ++ tail)) = msg.length :=
    readLen_encodeLen _ (by omega) _
  have hlen : (encodeLen msg.length ++ (msg ++ tail)).length
      = 4 + (msg.length + tail.length) := by
    simp [encodeLen]
    omega
  rw [e1]
  rw [drain_complete _ (by rw [hlen]; omega)
    (by rw [e4]; simp [MAX_FRAME]; omega) (by rw [hlen, e4]; omega)]
  rw [e4]
  have e2 : (encodeLen msg.length ++ (msg ++ tail)).drop 4 = msg ++ tail := rfl
  have e5 : (msg ++ tail).take msg.length = msg := List.take_left msg tail
  have e6 : (encodeLen msg.length ++ (msg ++ tail)).drop (4 + msg.length)
      = tail := by
    rw [← List.append_assoc]
    have : (encodeLen msg.length ++ msg).length = 4 + msg.length := by
      simp [encodeLen]
      omega
    rw [show 4 + msg.length = (encodeLen msg.length ++ msg).length from this.symm]
    exact List.drop_left _ _
  rw [e2, e5, e6]

theorem drain_nil : drain [] = ([], .ok []) :=
  drain_short [] (by simp)

theorem drain_encode (msg : List Nat) (hm : msg.length ≤ MAX_FRAME) :
    drain (encode msg) = ([msg], .ok []) := by
  have h := drain_encode_cons msg [] hm
  rw [List.append_nil, drain_nil] at h
  exact h

/-- C5: a Request encoded and then fed to the decoder in arbitrary
chunkings (one byte at a time included) is reproduced exactly; and two
concatenated encoded frames decode to exactly the two original
messages, with nothing split across calls and no byte of the next frame
consumed. -/
theorem framing_roundtrip :
    (∀ (msg : List Nat) (chunks : List (List Nat)),
        msg.length ≤ MAX_FRAME → chunks.flatten = encode msg →
        decodeStreamAll (.ok []) chunks = ([msg], .ok [])) ∧
    (∀ m1 m2 : List Nat, m1.length ≤ MAX_FRAME → m2.length ≤ MAX_FRAME →
        decodeStream (.ok []) (encode m1 ++ encode m2) = ([m1, m2], .ok [])) := by
  constructor
  · intro msg chunks hm hj
    rw [decodeStreamAll_eq_flatten chunks (.ok []) quiescent_init, hj]
    show drain ([] ++ encode msg) = ([msg], DecoderState.ok [])
    rw [List.nil_append]
    exact drain_encode msg hm
  · intro m1 m2 hm1 hm2
    show drain ([] ++ (encode m1 ++ encode m2)) = ([m1, m2], DecoderState.ok [])
    rw [List.nil_append, drain_encode_cons m1 (encode m2) hm1, drain_encode m2 hm2]

/-- Witness for C5: a one-byte payload delivered in 1-byte chunks, and
two concatenated frames. -/
theorem framing_roundtrip_witness :
    decodeStreamAll (.ok []) [[0], [0], [0], [1], [7]] = ([[7]], .ok []) ∧
    decodeStream (.ok []) (encode [2] ++ encode [3]) = ([[2], [3]], .ok []) :=
  ⟨framing_roundtrip.1 [7] [[0], [0], [0], [1], [7]] (by decide) (by decide),
    framing_roundtrip.2 [2] [3] (by decide) (by decide)⟩

/-- C6: an oversized length header makes the decoder fail with
`FramingError{Corrupt}`, and a corrupt decoder never yields another
message on any further input. -/
theorem corrupt_header_fatal :
    ∀ buf : List Nat, 4 ≤ buf.length → MAX_FRAME < readLen buf →
      decodeStream (.ok []) buf = ([], .failed .Corrupt) ∧
      ∀ chunks : List (List Nat),
        decodeStreamAll (.failed .Corrupt) chunks = ([], .failed .Corrupt) := by
  intro buf h4 hc
  constructor
  · show drain ([] ++ buf) = ([], DecoderState.failed .Corrupt)
    rw [List.nil_append]
    exact drain_corrupt buf (by omega) hc
  · intro chunks
    exact decodeStreamAll_failed _ chunks

/-- Witness for C6 at a concrete oversized header. -/
theorem corrupt_header_fatal_witness :
    decodeStream (.ok []) [1, 0, 0, 1] = ([], .failed .Corrupt) ∧
    decodeStreamAll (.failed .Corrupt) [[5]] = ([], .failed .Corrupt) :=
  ⟨(corrupt_header_fatal [1, 0, 0, 1] (by decide) (by decide)).1,
    (corrupt_header_fatal [1, 0, 0, 1] (by decide) (by decide)).2 [[5]]⟩

theorem map_fst_filter_ne (l : List (Nat × Request)) (id : Nat) :
    (l.filter (fun p => p.1 != id)).map Prod.fst
      = (l.map Prod.fst).filter (fun x => x != id) := by
  induction l with
  | nil => rfl
  | cons a t ih =>
      cases h : (a.1 != id) <;> simp [List.filter_cons, h, ih]

/-- Table invariant: every identifier occurs at most once across the
resolution log and the pending calls, and all are below `nextId`. -/
theorem reach_inv : ∀ s : TableState, Reach s →
    (tableIds s).Nodup ∧ ∀ x ∈ tableIds s, x < s.nextId := by
  intro s h
  induction h with
  | init => exact ⟨by simp [tableIds, initTable], by simp [tableIds, initTable]⟩
  | step_submit s req hs ih =>
      obtain ⟨hnd, hlt⟩ := ih
      have hids : tableIds (submit s req).2 = tableIds s ++ [s.nextId] := by
        simp [tableIds, submit]
      refine ⟨?_, ?_⟩
      · rw [hids, List.nodup_append]
        refine ⟨hnd, List.nodup_singleton _, ?_⟩
        intro x hx hx'
        simp at hx'
        subst hx'
        exact absurd (hlt _ hx) (lt_irrefl _)
      · intro x hx
        rw [hids] at hx
        show x < s.nextId + 1
        rcases List.mem_append.mp hx with h | h
        · exact Nat.lt_succ_of_lt (hlt _ h)
        · simp at h
          subst h
          exact Nat.lt_succ_self _
  | step_resolve s id r hs ih =>
      obtain ⟨hnd, hlt⟩ := ih
      by_cases hmem : id ∈ s.pending.map Prod.fst
      · have hres : (resolve s id r).2
            = { nextId := s.nextId
                pending := s.pending.filter (fun p => p.1 != id)
                delivered := s.delivered ++ [(id, r)] } := by
          simp [resolve, hmem]
        rw [hres]
        have hD : (s.delivered.map Prod.fst).Nodup :=
          (List.nodup_append.mp hnd).1
        have hP : (s.pending.map Prod.fst).Nodup :=
          (List.nodup_append.mp hnd).2.1
        have hdisj : (s.delivered.map Prod.fst).Disjoint (s.pending.map Prod.fst) :=
          (List.nodup_append.mp hnd).2.2
        have hids : tableIds
            { nextId := s.nextId
              pending := s.pending.filter (fun p => p.1 != id)
              delivered := s.delivered ++ [(id, r)] }
            = s.delivered.map Prod.fst
              ++ (id :: (s.pending.map Prod.fst).filter (fun x => x != id)) := by
          simp [tableIds, map_fst_filter_ne]
        refine ⟨?_, ?_⟩
        · rw [hids, List.nodup_append]
          refine ⟨hD, ?_, ?_⟩
          · rw [List.nodup_cons]
            refine ⟨?_, hP.filter _⟩
            intro hcontra
            have := (List.mem_filter.mp hcontra).2
            simp at this
          · intro x hx hx'
            rcases List.mem_cons.mp hx' with h | h
            · subst h
              exact hdisj hx hmem
            · exact hdisj hx (List.mem_of_mem_filter h)
        · intro x hx
          rw [hids] at hx
          show x < s.nextId
          rcases List.mem_append.mp hx with h | h
          · exact hlt x (List.mem_append_left _ h)
          · rcases List.mem_cons.mp h with h | h
            · subst h
              exact hlt x (List.mem_append_right _ hmem)
            · exact hlt x (List.mem_append_right _ (List.mem_of_mem_filter h))
      · have hres : (resolve s id r).2 = s := by
          simp [resolve, hmem]
        rw [hres]
        exact ⟨hnd, hlt⟩
  | step_cancel s hs ih =>
      obtain ⟨hnd, hlt⟩ := ih
      have hids : tableIds (cancelAll s) = tableIds s := by
        simp [tableIds, cancelAll]
      exact ⟨by rw [hids]; exact hnd, by rw [hids]; exact hlt⟩

/-- C1: under every sequence of submissions, resolutions and
cancellations, each delivered resolution occupies its own PendingCall
slot (no identifier is ever resolved twice), and a second attempt to
resolve an already-resolved identifier is rejected with `UnknownId`,
changing nothing. -/
theorem pending_call_single_resolution :
    ∀ s : TableState, Reach s →
      ((s.delivered.map Prod.fst).Nodup ∧
        ∀ (id : Nat) (r : Resolution), id ∈ s.delivered.map Prod.fst →
          resolve s id r = (.UnknownId, s)) := by
  intro s hs
  obtain ⟨hnd, _⟩ := reach_inv s hs
  rw [tableIds, List.nodup_append] at hnd
  obtain ⟨hD, hP, hdisj⟩ := hnd
  refine ⟨hD, ?_⟩
  intro id r hid
  have hnotp : id ∉ s.pending.map Prod.fst := fun hmem => hdisj hid hmem
  simp [resolve, hnotp]

/-- Witness for C1: submit one request, resolve it, then observe the
second resolution attempt being rejected. -/
theorem pending_call_single_resolution_witness :
    resolve (resolve (submit initTable sampleReq).2 0 (.success "v")).2 0 (.success "w")
      = (.UnknownId, (resolve (submit initTable sampleReq).2 0 (.success "v")).2) :=
  (pending_call_single_resolution _
      (Reach.step_resolve _ 0 _ (Reach.step_submit _ sampleReq Reach.init))).2
    0 (.success "w") (by decide)

/-- C2: cancelling on transport loss empties the table, resolves every
one of the N pending calls with a `ConnectionLost` error, and resolves
no call twice. -/
theorem cancel_all_resolves_all :
    ∀ s : TableState, Reach s →
      (cancelAll s).pending = [] ∧
      (cancelAll s).delivered
        = s.delivered
          ++ s.pending.map (fun p => (p.1, Resolution.failure .ConnectionLost)) ∧
      ((cancelAll s).delivered.map Prod.fst).Nodup ∧
      (cancelAll s).delivered.length = s.delivered.length + s.pending.length := by
  intro s hs
  obtain ⟨hnd, _⟩ := reach_inv (cancelAll s) (Reach.step_cancel s hs)
  refine ⟨rfl, rfl, ?_, by simp [cancelAll]⟩
  rw [tableIds, List.nodup_append] at hnd
  exact hnd.1

/-- Witness for C2 with two pending calls. -/
theorem cancel_all_resolves_all_witness :
    (cancelAll (submit (submit initTable sampleReq).2 sampleReq2).2).pending = [] ∧
    (cancelAll (submit (submit initTable sampleReq).2 sampleReq2).2).delivered
      = (submit (submit initTable sampleReq).2 sampleReq2).2.delivered
        ++ (submit (submit initTable sampleReq).2 sampleReq2).2.pending.map
            (fun p => (p.1, Resolution.failure .ConnectionLost)) ∧
    ((cancelAll (submit (submit initTable sampleReq).2 sampleReq2).2).delivered.map
        Prod.fst).Nodup ∧
    (cancelAll (submit (submit initTable sampleReq).2 sampleReq2).2).delivered.length
      = (submit (submit initTable sampleReq).2 sampleReq2).2.delivered.length
        + (submit (submit initTable sampleReq).2 sampleReq2).2.pending.length :=
  cancel_all_resolves_all _
    (Reach.step_submit _ sampleReq2 (Reach.step_submit _ sampleReq Reach.init))

/-- C7: frames leave on the single connection in strict FIFO order: in
every reachable relay state the transmitted sequence followed by the
still-queued frames is exactly the submission sequence, so the i-th
frame transmitted is the i-th request submitted — requests submitted
earlier are transmitted earlier (idempotent reads included). -/
theorem frames_fifo :
    ∀ s : RelayState, RelayReach s →
      s.submitted = s.transmitted ++ s.queue ∧
      ∀ (i : Nat) (d : Request), i < s.transmitted.length →
        s.transmitted.getD i d = s.submitted.getD i d := by
  intro s h
  have heq : s.submitted = s.transmitted ++ s.queue := by
    induction h with
    | init => rfl
    | step_submit s r hs ih => simp [submitFrame, ih]
    | step_transmit s hs ih =>
        cases hq : s.queue with
        | nil => simp [transmitFrame, hq, ih]
        | cons r q =>
            simp [transmitFrame, hq, ih, hq ▸ ih]
  refine ⟨heq, ?_⟩
  intro i d hi
  rw [heq]
  simp [List.getD, List.getElem?_append_left hi]

/-- Witness for C7: two submissions and one transmission; the first
frame out is the first request in. -/
theorem frames_fifo_witness :
    (transmitFrame (submitFrame (submitFrame initRelay sampleReq) sampleReq2)).transmitted.getD
        0 sampleReq
      = (transmitFrame (submitFrame (submitFrame initRelay sampleReq) sampleReq2)).submitted.getD
        0 sampleReq :=
  (frames_fifo _
      (RelayReach.step_transmit _
        (RelayReach.step_submit _ sampleReq2
          (RelayReach.step_submit _ sampleReq RelayReach.init)))).2
    0 sampleReq (by decide)

theorem lookupKey_setKey_self :
    ∀ (fields : List (String × JVal)) (k : String) (v : JVal),
      lookupKey (setKey fields k v) k = some v := by
  intro fields k v
  induction fields with
  | nil => simp [setKey, lookupKey]
  | cons p t ih =>
      by_cases h : p.1 = k
      · simp [setKey, if_pos h, lookupKey]
      · simp only [setKey, if_neg h, lookupKey, if_neg h]
        exact ih

theorem lookupKey_setKey_ne :
    ∀ (fields : List (String × JVal)) (k : String) (v : JVal) (q : String),
      q ≠ k → lookupKey (setKey fields k v) q = lookupKey fields q := by
  intro fields k v q hq
  induction fields with
  | nil => simp [setKey, lookupKey, Ne.symm hq]
  | cons p t ih =>
      by_cases h : p.1 = k
      · have hpq : ¬ p.1 = q := by rw [h]; exact Ne.symm hq
        simp only [setKey, if_pos h, lookupKey, if_neg (Ne.symm hq), if_neg hpq]
      · simp only [setKey, if_neg h, lookupKey]
        by_cases h2 : p.1 = q
        · rw [if_pos h2, if_pos h2]
        · rw [if_neg h2, if_neg h2]
          exact ih

theorem lookupKey_updateOptDeps_ne :
    ∀ (fields : List (String × JVal)) (v : String) (q : String),
      q ≠ "optionalDependencies" →
      lookupKey (updateOptDeps fields v) q = lookupKey fields q := by
  intro fields v q hq
  induction fields with
  | nil => rfl
  | cons p t ih =>
      by_cases h : p.1 = "optionalDependencies"
      · have hpq : ¬ p.1 = q := by rw [h]; exact Ne.symm hq
        simp only [updateOptDeps, if_pos h, lookupKey, if_neg hpq]
      · simp only [updateOptDeps, if_neg h, lookupKey]
        by_cases h2 : p.1 = q
        · rw [if_pos h2, if_pos h2]
        · rw [if_neg h2, if_neg h2]
          exact ih

theorem lookupKey_updateOptDeps_obj :
    ∀ (fields : List (String × JVal)) (v : String) (deps : List (String × JVal)),
      lookupKey fields "optionalDependencies" = some (.obj deps) →
      lookupKey (updateOptDeps fields v) "optionalDependencies"
        = some (.obj (deps.map (fun d => (d.1, JVal.str v)))) := by
  intro fields v deps h
  induction fields with
  | nil => simp [lookupKey] at h
  | cons p t ih =>
      by_cases hp : p.1 = "optionalDependencies"
      · rw [lookupKey, if_pos hp] at h
        injection h with h
        rw [updateOptDeps, if_pos hp, h]
        simp [lookupKey, hp]
      · rw [lookupKey, if_neg hp] at h
        rw [updateOptDeps, if_neg hp, lookupKey, if_neg hp]
        exact ih h

theorem expectChar_suffix (c : Char) (s t : List Char)
    (h : expectChar c s = some t) : ∃ m, s = m ++ t := by
  cases s with
  | nil => simp [expectChar] at h
  | cons x ts =>
      by_cases hx : x = c
      · simp only [expectChar, if_pos hx, Option.some.injEq] at h
        exact ⟨[x], by rw [h]; rfl⟩
      · simp [expectChar, hx] at h

theorem expectLit_suffix :
    ∀ (lit s t : List Char), expectLit lit s = some t → ∃ m, s = m ++ t := by
  intro lit
  induction lit with
  | nil =>
      intro s t h
      simp only [expectLit, Option.some.injEq] at h
      exact ⟨[], by rw [h]; rfl⟩
  | cons c cs ih =>
      intro s t h
      simp only [expectLit, Option.bind_eq_some] at h
      obtain ⟨s1, h1, h2⟩ := h
      obtain ⟨m1, hm1⟩ := expectChar_suffix c s s1 h1
      obtain ⟨m2, hm2⟩ := ih s1 t h2
      exact ⟨m1 ++ m2, by rw [hm1, hm2, List.append_assoc]⟩

/-- A successful match consumes a prefix: the remainder is a suffix of
the input. -/
theorem matchVersionAssign_suffix (s r : List Char)
    (h : matchVersionAssign s = some r) : ∃ m, s = m ++ r := by
  simp only [matchVersionAssign, bind, Option.bind_eq_some] at h
  obtain ⟨r0, h0, r2, h2, r4, h4, h6⟩ := h
  obtain ⟨m0, hm0⟩ := expectLit_suffix _ _ _ h0
  obtain ⟨m2, hm2⟩ := expectChar_suffix _ _ _ h2
  obtain ⟨m4, hm4⟩ := expectChar_suffix _ _ _ h4
  obtain ⟨m6, hm6⟩ := expectChar_suffix _ _ _ h6
  have d0 : r0 = r0.takeWhile jsSpace ++ (m2 ++ r2) := by
    rw [← hm2]
    exact (List.takeWhile_append_dropWhile jsSpace r0).symm
  have d2 : r2 = r2.takeWhile jsSpace ++ (m4 ++ r4) := by
    rw [← hm4]
    exact (List.takeWhile_append_dropWhile jsSpace r2).symm
  have d4 : r4 = r4.takeWhile (fun c => c != '"') ++ (m6 ++ r) := by
    rw [← hm6]
    exact (List.takeWhile_append_dropWhile (fun c => c != '"') r4).symm
  refine ⟨m0 ++ (r0.takeWhile jsSpace ++ (m2 ++ (r2.takeWhile jsSpace
    ++ (m4 ++ (r4.takeWhile (fun c => c != '"') ++ m6))))), ?_⟩
  rw [hm0]
  conv_lhs => rw [d0]
  conv_lhs => rw [d2]
  conv_lhs => rw [d4]
  simp [List.append_assoc]

/-- The scan replaces exactly the region of the first line-start
anchored match and nothing else; with no anchored match it is the
identity. -/
theorem scanReplace_spec (v : List Char) :
    ∀ (s : List Char) (atStart : Bool),
      (anchoredMatchSplit s atStart = none → scanReplace v s atStart = s) ∧
      (∀ pre rest, anchoredMatchSplit s atStart = some (pre, rest) →
        scanReplace v s atStart = pre ++ replacementText v ++ rest ∧
        ∃ mid, s = pre ++ (mid ++ rest)
          ∧ matchVersionAssign (mid ++ rest) = some rest) := by
  intro s
  induction s with
  | nil =>
      intro atStart
      exact ⟨fun _ => rfl, fun pre rest h => by simp [anchoredMatchSplit] at h⟩
  | cons c cs ih =>
      intro atStart
      cases atStart with
      | true =>
          cases hm : matchVersionAssign (c :: cs) with
          | some rest0 =>
              constructor
              · intro h
                simp [anchoredMatchSplit, hm] at h
              · intro pre rest h
                simp only [anchoredMatchSplit, hm, Option.some.injEq,
                  Prod.mk.injEq] at h
                obtain ⟨hpre, hrest⟩ := h
                subst hpre; subst hrest
                constructor
                · simp only [scanReplace, hm, List.nil_append]
                · obtain ⟨mid, hmid⟩ := matchVersionAssign_suffix _ _ hm
                  exact ⟨mid, by rw [← hmid]; simp, by rw [← hmid]; exact hm⟩
          | none =>
              constructor
              · intro h
                simp only [anchoredMatchSplit, hm, Option.map_eq_none'] at h
                simp only [scanReplace, hm]
                rw [(ih (c == '\n')).1 h]
              · intro pre rest h
                simp only [anchoredMatchSplit, hm, Option.map_eq_some'] at h
                obtain ⟨⟨q1, q2⟩, hq, hpq⟩ := h
                simp only [Prod.mk.injEq] at hpq
                obtain ⟨hpre, hrest⟩ := hpq
                subst hpre; subst hrest
                obtain ⟨hscan, mid, hmid, hmatch⟩ := (ih (c == '\n')).2 q1 q2 hq
                refine ⟨?_, mid, ?_, hmatch⟩
                · simp only [scanReplace, hm, hscan, List.cons_append]
                · rw [List.cons_append, ← hmid]
      | false =>
          constructor
          · intro h
            simp only [anchoredMatchSplit, Option.map_eq_none'] at h
            simp only [scanReplace]
            rw [(ih (c == '\n')).1 h]
          · intro pre rest h
            simp only [anchoredMatchSplit, Option.map_eq_some'] at h
            obtain ⟨⟨q1, q2⟩, hq, hpq⟩ := h
            simp only [Prod.mk.injEq] at hpq
            obtain ⟨hpre, hrest⟩ := hpq
            subst hpre; subst hrest
            obtain ⟨hscan, mid, hmid, hmatch⟩ := (ih (c == '\n')).2 q1 q2 hq
            refine ⟨?_, mid, ?_, hmatch⟩
            · simp only [scanReplace, hscan, List.cons_append]
            · rw [List.cons_append, ← hmid]

/-- C9: invoked without a version argument (absent or empty
`process.argv[2]`), the script prints the usage message, exits with
status 1, and neither the main package.json, nor a platform
package.json, nor Cargo.toml is modified. -/
theorem missing_version_arg_writes_nothing :
    ∀ (argv2 : Option String) (fs : VersionFiles),
      argv2 = none ∨ argv2 = some "" →
      updateVersionScript argv2 fs
        = (1, fs, ["Usage: node update-version.js <version>"]) := by
  intro argv2 fs h
  rcases h with h | h <;> subst h <;> rfl

/-- Witness for C9 on a concrete filesystem. -/
theorem missing_version_arg_writes_nothing_witness :
    updateVersionScript none emptyVersionFiles
      = (1, emptyVersionFiles, ["Usage: node update-version.js <version>"]) :=
  missing_version_arg_writes_nothing none emptyVersionFiles (Or.inl rfl)

/-- C10 counterexample: the Cargo.toml rewrite is not per-line.  On the
file `"version\n= \"1\"\n"` no single line matches `version = "..."`
(so the per-line reading of the claim leaves every line unchanged), yet
the script's regex — whose `\s*` crosses the newline — rewrites the
file. -/
theorem update_version_cargo_counterexample :
    ("version\n= \"1\"\n".data
        = List.intercalate ['\n']
            ["version".data, "= \"1\"".data, ([] : List Char)]) ∧
    cargoReplaceClaimed "2".data
        ["version".data, "= \"1\"".data, ([] : List Char)]
      = ["version".data, "= \"1\"".data, ([] : List Char)] ∧
    (∀ l ∈ (["version".data, "= \"1\"".data, ([] : List Char)] : List (List Char)),
        matchVersionAssign l = none) ∧
    cargoReplaceVersion "2".data "version\n= \"1\"\n".data
      ≠ "version\n= \"1\"\n".data :=
  ⟨by decide, by decide, by decide, by decide⟩

/-- C10 (amended): the main package.json rewrite changes only the
top-level `version` field and the values under `optionalDependencies`,
leaving every other field unchanged; the Cargo.toml rewrite replaces
exactly the region of the first line-start-anchored match of
`version\s*=\s*"[^"]*"` (a region that may span lines, since `\s`
matches newlines) with `version = "<v>"`, leaving the bytes before and
after that region unchanged, and leaves a file with no anchored match
untouched. -/
theorem update_version_rewrite_frame :
    (∀ (v : String) (fields : List (String × JVal)),
        lookupKey (rewriteMainPkg v fields) "version" = some (.str v) ∧
        (∀ k, k ≠ "version" → k ≠ "optionalDependencies" →
          lookupKey (rewriteMainPkg v fields) k = lookupKey fields k) ∧
        (∀ deps, lookupKey fields "optionalDependencies" = some (.obj deps) →
          lookupKey (rewriteMainPkg v fields) "optionalDependencies"
            = some (.obj (deps.map (fun d => (d.1, JVal.str v)))))) ∧
    (∀ (v file : List Char),
        (anchoredMatchSplit file true = none → cargoReplaceVersion v file = file) ∧
        (∀ pre rest, anchoredMatchSplit file true = some (pre, rest) →
          cargoReplaceVersion v file = pre ++ replacementText v ++ rest ∧
          ∃ mid, file = pre ++ (mid ++ rest)
            ∧ matchVersionAssign (mid ++ rest) = some rest)) := by
  constructor
  · intro v fields
    refine ⟨?_, ?_, ?_⟩
    · rw [rewriteMainPkg, lookupKey_updateOptDeps_ne _ _ _ (by decide),
        lookupKey_setKey_self]
    · intro k hk1 hk2
      rw [rewriteMainPkg, lookupKey_updateOptDeps_ne _ _ _ hk2,
        lookupKey_setKey_ne _ _ _ _ hk1]
    · intro deps hdeps
      rw [rewriteMainPkg]
      refine lookupKey_updateOptDeps_obj _ _ _ ?_
      rw [lookupKey_setKey_ne _ _ _ _ (by decide)]
      exact hdeps
  · intro v file
    exact scanReplace_spec v file true

/-- Witness for the amended C10 on a concrete package.json object and a
concrete Cargo.toml. -/
theorem update_version_rewrite_frame_witness :
    lookupKey (rewriteMainPkg "2.0.0" samplePkgFields) "version"
      = some (.str "2.0.0") ∧
    lookupKey (rewriteMainPkg "2.0.0" samplePkgFields) "name"
      = lookupKey samplePkgFields "name" ∧
    lookupKey (rewriteMainPkg "2.0.0" samplePkgFields) "optionalDependencies"
      = some (.obj [("@hotwired/mcp-linux-x64", JVal.str "2.0.0")]) ∧
    cargoReplaceVersion "2.0.0".data "[package]\nversion = \"1.0.2\"\n".data
      = "[package]\n".data ++ replacementText "2.0.0".data ++ "\n".data :=
  ⟨(update_version_rewrite_frame.1 "2.0.0" samplePkgFields).1,
    (update_version_rewrite_frame.1 "2.0.0" samplePkgFields).2.1 "name"
      (by decide) (by decide),
    (update_version_rewrite_frame.1 "2.0.0" samplePkgFields).2.2
      [("@hotwired/mcp-linux-x64", JVal.str "1.0.2")] rfl,
    ((update_version_rewrite_frame.2 "2.0.0".data
        "[package]\nversion = \"1.0.2\"\n".data).2
      "[package]\n".data "\n".data (by decide)).1⟩

end HotwiredMCP
